import Mathlib

/-!
# Verification of the IOS-XR SSH-key reconciliation module

A shallow embedding of `iosxr_sshkeys.py`: the TextFSM-based output parser,
the `ssh2cisco` key-format conversion, the dict diff, and the apply phase
(file staging, key-import and key-zeroize commands), together with theorems
checking the module's specification against this embedding.

Python strings are modelled as `List Char`, Python dicts as association
lists with insertion-order semantics (`dictInsert` updates in place,
appends new keys at the end), bytes as `List Nat` (each < 256 in practice).
-/

namespace IosxrSshKeys

/-- Python strings, modelled as lists of characters. -/
abbrev Str := List Char

/-- Python dicts from user name to string, in insertion order. -/
abbrev Dict := List (Str × Str)

/-! ## Character classes of the regexes used by the TextFSM template -/

/-- `\w` of the template's `(\w+)` value regex (ASCII word characters;
the device user labels are ASCII). -/
def isWordChar (c : Char) : Bool :=
  c.isAlphanum || c == '_'

/-- `\s` of the template's `^Data\s+:` rule (ASCII whitespace). -/
def isSpaceChar (c : Char) : Bool :=
  c == ' ' || c == '\t' || c == '\n' || c == '\r' || c == '\x0b' || c == '\x0c'

/-- The character class `[A-F0-9 ]` of the template's `Data` value regex. -/
def isHexSp (c : Char) : Bool :=
  ('0' ≤ c && c ≤ '9') || ('A' ≤ c && c ≤ 'F') || c == ' '

/-! ## Line splitting and the `replace(' \n', '\n')` preprocessing -/

/-- Python `str.split("\n")`: splits on every newline, keeping empty parts
(so a trailing newline yields a trailing empty string). -/
def splitNl : Str → List Str
  | [] => [[]]
  | c :: rest =>
    if c = '\n' then [] :: splitNl rest
    else
      match splitNl rest with
      | [] => [[c]]
      | l :: ls => (c :: l) :: ls

/-- Python `str.splitlines()` restricted to `\n` separators: like
`split("\n")` but without the trailing empty part. -/
def pySplitlines (s : Str) : List Str :=
  let l := splitNl s
  if l.getLast? = some [] then l.dropLast else l

/-- `out.replace(' \n', '\n')` from line 82 of the module: one left-to-right
pass replacing each non-overlapping occurrence of space-newline by newline. -/
def pyReplaceSpaceNl : Str → Str
  | [] => []
  | [c] => [c]
  | c1 :: c2 :: rest =>
    if c1 = ' ' ∧ c2 = '\n' then '\n' :: pyReplaceSpaceNl rest
    else c1 :: pyReplaceSpaceNl (c2 :: rest)

/-! ## The three rule regexes of the TextFSM template

TextFSM matches each rule with `re.match` (anchored at the start of the
line, not required to consume it entirely). -/

/-- Literal-prefix matching: `dropPre p s = some rest` iff `s = p ++ rest`. -/
def dropPre : Str → Str → Option Str
  | [], s => some s
  | _ :: _, [] => none
  | c :: p, d :: s => if c = d then dropPre p s else none

/-- `re.match(r"Key label: (\w+)", line)`: on success returns the captured
(maximal, non-empty) word-character run after the literal. -/
def matchKeyLabel (line : Str) : Option Str :=
  match dropPre "Key label: ".data line with
  | none => none
  | some rest =>
    let w := rest.takeWhile isWordChar
    if w = [] then none else some w

/-- `re.match(r"Data\s+:", line)`: literal `Data`, then at least one
whitespace character, then a colon. -/
def matchDataHeader (line : Str) : Bool :=
  match dropPre "Data".data line with
  | none => false
  | some rest =>
    !(rest.takeWhile isSpaceChar).isEmpty &&
      (match rest.dropWhile isSpaceChar with
       | ':' :: _ => true
       | _ => false)

/-- `re.match(r" ([A-F0-9 ]+)", line)`: a leading space, then the captured
(maximal, non-empty) run over `[A-F0-9 ]`. -/
def matchDataLine : Str → Option Str
  | ' ' :: rest =>
    let h := rest.takeWhile isHexSp
    if h = [] then none else some h
  | _ => none

/-! ## The two-state TextFSM machine of the template

States `Start` (`inData = false`) and `GetData` (`inData = true`); values
`Label` (`Required`) and `Data` (`Required,List`). -/

/-- Parser state: current FSM state, current values, emitted rows. -/
structure FsmSt where
  inData : Bool
  label : Option Str
  data : List Str
  rows : List (Str × List Str)
deriving DecidableEq

/-- The initial TextFSM state. -/
def initFsm : FsmSt := ⟨false, none, [], []⟩

/-- TextFSM's `Record` action: emits the row only when every `Required`
value is set and truthy (label a non-empty string, data a non-empty list),
then clears the values; a record with a missing required value is silently
skipped. -/
def appendRecord (s : FsmSt) : FsmSt :=
  match s.label, s.data with
  | some (c :: cs), d :: ds =>
    { s with label := none, data := [], rows := s.rows ++ [(c :: cs, d :: ds)] }
  | _, _ => { s with label := none, data := [] }

/-- One line through the template's rules.  In `Start`: `^Key label: ${Label}`
(stay), else `^Data\s+: -> GetData`.  In `GetData`: `^ ${Data}` (append to
the list value), else `^$$ -> Record Start`.  Non-matching lines are
ignored. -/
def fsmStep (s : FsmSt) (line : Str) : FsmSt :=
  if s.inData then
    match matchDataLine line with
    | some frag => { s with data := s.data ++ [frag] }
    | none =>
      if line = [] then { appendRecord s with inData := false } else s
  else
    match matchKeyLabel line with
    | some l => { s with label := some l }
    | none =>
      if matchDataHeader line then { s with inData := true } else s

/-- `TextFSM.ParseText`: run every line through the FSM, then perform the
implicit EOF `Record`. -/
def runFsm (lines : List Str) : List (Str × List Str) :=
  (appendRecord (lines.foldl fsmStep initFsm)).rows

/-- `"".join(data).replace(' ', '')`: concatenate the collected hex
fragments and strip every space (line 96 of the module). -/
def cleanData (frags : List Str) : Str :=
  frags.flatten.filter (fun c => !(c == ' '))

/-! ## Python dicts as insertion-ordered association lists -/

/-- `d[k] = v`: update in place when the key exists, else append. -/
def dictInsert (d : Dict) (k v : Str) : Dict :=
  if d.any (fun p => p.1 == k) then
    d.map (fun p => if p.1 == k then (k, v) else p)
  else
    d ++ [(k, v)]

/-- Build a dict from key/value pairs in order (dict comprehension:
a repeated key keeps its first position and last value). -/
def dictOf (pairs : List (Str × Str)) : Dict :=
  pairs.foldl (fun d p => dictInsert d p.1 p.2) []

/-- `d[k]` / `k in d`: first-match lookup. -/
def pyLookup (d : Dict) (k : Str) : Option Str :=
  (d.find? (fun p => p.1 == k)).map (fun p => p.2)

/-- Python `==` on dicts: equal key sets with equal values. -/
def dictEq (d1 d2 : Dict) : Bool :=
  d1.all (fun p => pyLookup d2 p.1 == some p.2) &&
    d2.all (fun p => pyLookup d1 p.1 == some p.2)

/-- The keys of a dict are pairwise distinct (an invariant of every dict
built by `dictOf`). -/
def NodupKeys (d : Dict) : Prop := (d.map (fun p => p.1)).Nodup

/-! ## `got`: parsing the device output (lines 82-97 of the module) -/

/-- Lines 82-97: preprocess the command output, run the TextFSM template,
and build the dict `{label: "".join(data).replace(' ', '')}`. -/
def parseGot (out : Str) : Dict :=
  dictOf ((runFsm (pySplitlines (pyReplaceSpaceNl out))).map
    (fun r => (r.1, cleanData r.2)))

/-! ## `ssh2cisco`: key-format conversion (lines 33-43 of the module)

The external `ssh-keygen -e -mPKCS8` call is modelled by an oracle
`keygen : Str → ToolResult` giving the process's exit code and decoded
stdout; the rest of `ssh2cisco` (exit-code check, line slicing, base64
decoding, hexlify, upper-casing) is embedded directly. -/

/-- Result of the external conversion process: exit code and stdout text. -/
structure ToolResult where
  returncode : Int
  stdout : Str

/-- Errors raised by `ssh2cisco`: the `RuntimeError` on a non-zero exit
code (carrying the offending key), or a `binascii.Error` from
`base64.b64decode`. -/
inductive ConvErr
  | toolFailed (key : Str)
  | badBase64
deriving DecidableEq

/-- Value of a standard base64 alphabet character. -/
def b64Val (c : Char) : Option Nat :=
  if 'A' ≤ c && c ≤ 'Z' then some (c.toNat - 'A'.toNat)
  else if 'a' ≤ c && c ≤ 'z' then some (c.toNat - 'a'.toNat + 26)
  else if '0' ≤ c && c ≤ '9' then some (c.toNat - '0'.toNat + 52)
  else if c == '+' then some 62
  else if c == '/' then some 63
  else none

/-- Decode base64 four characters at a time; `=` padding only in the final
group; a leftover group of 1-3 characters is an error (incorrect padding). -/
def b64Groups : Str → Option (List Nat)
  | [] => some []
  | [a, b, '=', '='] =>
    match b64Val a, b64Val b with
    | some va, some vb => some [va * 4 + vb / 16]
    | _, _ => none
  | [a, b, c, '='] =>
    match b64Val a, b64Val b, b64Val c with
    | some va, some vb, some vc =>
      some [va * 4 + vb / 16, (vb % 16) * 16 + vc / 4]
    | _, _, _ => none
  | a :: b :: c :: d :: rest =>
    match b64Val a, b64Val b, b64Val c, b64Val d, b64Groups rest with
    | some va, some vb, some vc, some vd, some tail =>
      some ([va * 4 + vb / 16, (vb % 16) * 16 + vc / 4, (vc % 4) * 64 + vd] ++ tail)
    | _, _, _, _, _ => none
  | _ => none

/-- `base64.b64decode` (default validation): characters outside the
alphabet and padding are discarded first, then the groups are decoded. -/
def b64decode (s : Str) : Option (List Nat) :=
  b64Groups (s.filter (fun c => (b64Val c).isSome || c == '='))

/-- The hex digit characters emitted by `binascii.hexlify` (lower case). -/
def hexDigitLower (n : Nat) : Char :=
  "0123456789abcdef".data.getD n '0'

/-- `binascii.hexlify`: two lower-case hex digits per byte. -/
def hexlify (bytes : List Nat) : Str :=
  bytes.flatMap (fun b => [hexDigitLower (b / 16 % 16), hexDigitLower (b % 16)])

/-- ASCII `str.upper` on one character. -/
def asciiUpper (c : Char) : Char :=
  if 'a' ≤ c && c ≤ 'z' then Char.ofNat (c.toNat - 32) else c

/-- Python `str.upper` (ASCII range suffices here). -/
def pyUpper (s : Str) : Str := s.map asciiUpper

/-- `proc.stdout.decode('ascii').split("\n")[1:-2]` joined: the base64
payload between the PEM-style header and trailer of the tool's output. -/
def joinedPayload (stdout : Str) : Str :=
  (((splitNl stdout).drop 1).dropLast.dropLast).flatten

/-- Lines 33-43: run the conversion tool; on a non-zero exit code raise;
otherwise base64-decode the joined payload lines and return the upper-cased
hexlified bytes. -/
def ssh2cisco (keygen : Str → ToolResult) (sshkey : Str) : Except ConvErr Str :=
  if (keygen sshkey).returncode != 0 then .error (.toolFailed sshkey)
  else
    match b64decode (joinedPayload (keygen sshkey).stdout) with
    | none => .error .badBase64
    | some bytes => .ok (pyUpper (hexlify bytes))

/-! ## The main pipeline (lines 46-135 of the module) -/

/-- A remote side effect issued by the apply phase: staging a file through
`copy_file`, or sending an interactive command through
`conn.send_command(command, prompt, answer)`. -/
inductive Event
  | copy (content : List Nat) (dst : Str)
  | send (command : Str) (prompt : Str) (answer : Str)
deriving DecidableEq

/-- A fatal error of the run: a conversion failure (from building
`wanted`), Python's `NameError` when `dst` is referenced before
assignment in the import loop, or a failure while preparing the staged
key bytes (`IndexError` / `binascii.Error`). -/
inductive RunError
  | conv (e : ConvErr)
  | nameError
  | stageError
deriving DecidableEq

/-- The observable outcome of a run: the reported `changed` flag and the
remote side effects issued. -/
structure RunResult where
  changed : Bool
  events : List Event
deriving DecidableEq

/-- Lines 100-101: `wanted = {k: ssh2cisco(v) for k, v in keys.items()}`,
evaluated left to right, failing on the first conversion error. -/
def computeWantedGo (keygen : Str → ToolResult) (acc : Dict) :
    List (Str × Str) → Except ConvErr Dict
  | [] => .ok acc
  | (k, v) :: rest =>
    match ssh2cisco keygen v with
    | .error e => .error e
    | .ok h => computeWantedGo keygen (dictInsert acc k h) rest

/-- The `wanted` dict of the module. -/
def computeWanted (keygen : Str → ToolResult) (keys : List (Str × Str)) :
    Except ConvErr Dict :=
  computeWantedGo keygen [] keys

/-- `got != wanted` (line 103): the reported `changed` flag. -/
def changedFlag (got wanted : Dict) : Bool :=
  !dictEq got wanted

/-- The staging destination `f"/harddisk:/publickey_{user}.raw"`. -/
def dstPath (user : Str) : Str :=
  "/harddisk:/publickey_".data ++ user ++ ".raw".data

/-- The interactive import command string of line 124. -/
def keyImportCmd (user dst : Str) : Str :=
  "admin crypto key import authentication rsa username ".data ++ user
    ++ [' '] ++ dst

/-- The interactive zeroize command string of line 131. -/
def keyZeroizeCmd (user : Str) : Str :=
  "admin crypto key zeroize authentication rsa username ".data ++ user

/-- Whitespace-run splitting: Python `str.split()` with no argument. -/
def splitWsAux : Str → Str → List Str
  | [], cur => if cur = [] then [] else [cur.reverse]
  | c :: rest, cur =>
    if isSpaceChar c then
      if cur = [] then splitWsAux rest [] else cur.reverse :: splitWsAux rest []
    else
      splitWsAux rest (c :: cur)

/-- Python `str.split()`. -/
def pySplitWs (s : Str) : List Str := splitWsAux s []

/-- Lines 119-120: the bytes staged for one user,
`base64.b64decode(module.params['keys'][user].split()[1])`. -/
def stageContent (keysDict : Dict) (user : Str) : Except RunError (List Nat) :=
  match pyLookup keysDict user with
  | none => .error .stageError
  | some key =>
    match (pySplitWs key).get? 1 with
    | none => .error .stageError
    | some payload =>
      match b64decode payload with
      | none => .error .stageError
      | some bytes => .ok bytes

/-- The import loop of lines 115-126, exactly as indented in the source:
the staging (`dst` assignment, temp file, `copy_file`) runs only under
`if user not in got or wanted[user] != got[user]:`, but the
`conn.send_command` of the import command runs for every user of `wanted`,
referencing whatever value `dst` last received — a `NameError` when no
earlier iteration assigned it. -/
def keyImportLoop (got keysDict : Dict) :
    List (Str × Str) → Option Str → List Event → Except RunError (List Event)
  | [], _, events => .ok events
  | (user, whex) :: rest, dst, events =>
    if pyLookup got user == some whex then
      match dst with
      | none => .error .nameError
      | some d =>
        keyImportLoop got keysDict rest dst
          (events ++ [.send (keyImportCmd user d) "yes/no".data "yes".data])
    else
      match stageContent keysDict user with
      | .error e => .error e
      | .ok bytes =>
        let d := dstPath user
        keyImportLoop got keysDict rest (some d)
          (events ++ [.copy bytes d,
            .send (keyImportCmd user d) "yes/no".data "yes".data])

/-- The removal loop of lines 129-133: zeroize every user of `got` that is
absent from `wanted`. -/
def removeEvents (got wanted : Dict) : List Event :=
  (got.filter (fun p => (pyLookup wanted p.1).isNone)).map
    (fun p => .send (keyZeroizeCmd p.1) "yes/no".data "yes".data)

/-- The whole apply phase (lines 113-133). -/
def applyPhase (wanted got keysDict : Dict) : Except RunError (List Event) :=
  match keyImportLoop got keysDict wanted none [] with
  | .error e => .error e
  | .ok evs => .ok (evs ++ removeEvents got wanted)

/-- Lines 103-135 after `got` and `wanted` are built: compute `changed`,
exit immediately in check mode or when nothing changed, otherwise run the
apply phase. -/
def reconcile (got wanted keysDict : Dict) (checkMode : Bool) :
    Except RunError RunResult :=
  let changed := changedFlag got wanted
  if checkMode || !changed then .ok ⟨changed, []⟩
  else
    match applyPhase wanted got keysDict with
    | .error e => .error e
    | .ok evs => .ok ⟨true, evs⟩

/-- The whole of `main` for one run: parse the device output into `got`,
convert the desired keys into `wanted` (failing fast), then reconcile. -/
def mainRun (deviceOut : Str) (keys : List (Str × Str))
    (keygen : Str → ToolResult) (checkMode : Bool) : Except RunError RunResult :=
  let got := parseGot deviceOut
  match computeWanted keygen keys with
  | .error e => .error (.conv e)
  | .ok wanted => reconcile got wanted (dictOf keys) checkMode

/-! ## The diff of the specification's State Model

The source has no explicit `Diff` value; these definitions transcribe the
conditions the apply phase tests: line 116 (`user not in got or
wanted[user] != got[user]`) selects the users to import, line 130
(`user not in wanted`) the users to remove. -/

/-- The desired entries flagged for import by the condition of line 116. -/
def diffImport (got wanted : Dict) : Dict :=
  wanted.filter (fun p => !(pyLookup got p.1 == some p.2))

/-- The current entries flagged for removal by the condition of line 130. -/
def diffRemove (got wanted : Dict) : Dict :=
  got.filter (fun p => (pyLookup wanted p.1).isNone)

/-! ## Rendering device output and the device's reaction to commands

Modelled from the spec: the device itself is an external collaborator and
its code is not in the repository.  Its report format follows §4.2/§6 of
the spec and the sample output quoted at lines 66-80 of the module; its
reaction to the import/zeroize commands follows §6 (import binds the
staged file's key to the user, zeroize removes the user's key). -/

/-- The lines of one record block of a device report: label line, data
header, one data line per hex fragment, terminating blank line. -/
def blockLines (b : Str × List Str) : List Str :=
  ("Key label: ".data ++ b.1) :: "Data :".data :: (b.2.map (fun f => ' ' :: f) ++ [[]])

/-- Join lines into the raw text of a report (each line newline-terminated). -/
def joinNl (lines : List Str) : Str :=
  (lines.map (fun l => l ++ ['\n'])).flatten

/-- A full device report for a list of labelled hex-fragment blocks. -/
def renderBlocks (blocks : List (Str × List Str)) : Str :=
  joinNl (blocks.flatMap blockLines)

/-- Modelled from the spec: what the device prints for
`show crypto key authentication rsa all` when holding the given key
mapping — one block per user with its material as a single data line. -/
def renderDevice (st : Dict) : Str :=
  renderBlocks (st.map (fun p => (p.1, [p.2])))

/-- Staging area lookup (device file system as path-to-bytes pairs). -/
def fileLookup (fs : List (Str × List Nat)) (k : Str) : Option (List Nat) :=
  (fs.find? (fun p => p.1 == k)).map (fun p => p.2)

/-- Staging a file overwrites any previous file at the same path. -/
def fileInsert (fs : List (Str × List Nat)) (k : Str) (v : List Nat) :
    List (Str × List Nat) :=
  if fs.any (fun p => p.1 == k) then
    fs.map (fun p => if p.1 == k then (k, v) else p)
  else
    fs ++ [(k, v)]

/-- Removing a user's key from the device mapping. -/
def dictRemove (d : Dict) (k : Str) : Dict :=
  d.filter (fun p => !(p.1 == k))

/-- Modelled from the spec: the device's reaction to one remote operation.
`deviceHex` is the device's own raw-bytes-to-reported-hex conversion
(§4.1 requires the converter to match it).  A `copy` stages a file; an
import-key command binds the staged file's converted key to the named
user; a zeroize command removes the named user's key. -/
def deviceStep (deviceHex : List Nat → Str)
    (s : List (Str × List Nat) × Dict) (e : Event) :
    List (Str × List Nat) × Dict :=
  match e with
  | .copy content dst => (fileInsert s.1 dst content, s.2)
  | .send cmd _ _ =>
    match dropPre "admin crypto key import authentication rsa username ".data cmd with
    | some rest =>
      match pySplitWs rest with
      | [user, dst] =>
        (s.1,
          match fileLookup s.1 dst with
          | some bytes => dictInsert s.2 user (deviceHex bytes)
          | none => s.2)
      | _ => s
    | none =>
      match dropPre "admin crypto key zeroize authentication rsa username ".data cmd with
      | some user => (s.1, dictRemove s.2 user)
      | none => s

/-- The device key mapping after a run's events, starting from `st0` with
an empty staging area. -/
def devAfter (deviceHex : List Nat → Str) (st0 : Dict) (events : List Event) : Dict :=
  (events.foldl (deviceStep deviceHex) ([], st0)).2

/-! ## Spec-side rendering for the conversion claim -/

/-- Upper-case hex digits. -/
def hexDigitUpper (n : Nat) : Char :=
  "0123456789ABCDEF".data.getD n '0'

/-- The spec's required output form for the converter: the key bytes
rendered as an upper-case hexadecimal string with no separators. -/
def specUpperHex (bytes : List Nat) : Str :=
  bytes.flatMap (fun b => [hexDigitUpper (b / 16 % 16), hexDigitUpper (b % 16)])

/-- An upper-case hexadecimal digit character. -/
def isUpperHexChar (c : Char) : Bool :=
  ('0' ≤ c && c ≤ '9') || ('A' ≤ c && c ≤ 'F')

/-! ## Concrete sample inputs used by counterexamples and witnesses -/

/-- A desired OpenSSH key whose base64 payload decodes to bytes `AAA`. -/
def keyAlice : Str := "ssh-rsa QUFB alice@host".data

/-- A desired OpenSSH key whose base64 payload decodes to bytes `BBB`. -/
def keyBob : Str := "ssh-rsa QkJC bob@host".data

/-- A PKCS8-style stdout for the conversion tool whose payload line is the
given base64 text (`split("\n")[1:-2]` recovers exactly that line). -/
def kgOut (payload : Str) : ToolResult :=
  ⟨0, "---- BEGIN ----\n".data ++ payload ++ "\n---- END ----\n".data⟩

/-- A conversion oracle succeeding on the two sample keys (with the same
payload bytes as the keys themselves) and failing on anything else. -/
def sampleKeygen : Str → ToolResult := fun k =>
  if k == keyAlice then kgOut "QUFB".data
  else if k == keyBob then kgOut "QkJC".data
  else ⟨1, []⟩

/-- Device output reporting exactly one key: user `alice` with material
`414141` (the converted form of `keyAlice`). -/
def outAliceOnly : Str := renderDevice [("alice".data, "414141".data)]

/-- Desired keys: `bob` (absent from the device) first, then `alice`
(already converged on the device). -/
def keysBobAlice : List (Str × Str) :=
  [("bob".data, keyBob), ("alice".data, keyAlice)]

/-- The events the embedded run issues on `outAliceOnly` / `keysBobAlice`:
`bob` is staged and imported, and then — although `alice`'s current and
desired material are identical — an import command is also sent for
`alice`, referencing `bob`'s staged file. -/
def eventsBobAlice : List Event :=
  [.copy [66, 66, 66] (dstPath "bob".data),
   .send (keyImportCmd "bob".data (dstPath "bob".data)) "yes/no".data "yes".data,
   .send (keyImportCmd "alice".data (dstPath "bob".data)) "yes/no".data "yes".data]

/-- A device report in which a label line starts a record but the required
hex-data section is missing. -/
def outMissingData (l : Str) : Str :=
  joinNl ["Key label: ".data ++ l, "Data :".data, []]

/-! ## Helper lemmas: prefixes, regex matchers, line splitting -/

theorem dropPre_append (p s : Str) : dropPre p (p ++ s) = some s := by
  induction p with
  | nil => rfl
  | cons c p ih => simp [dropPre, ih]

theorem takeWhile_all {p : Char → Bool} {l : Str} (h : l.all p = true) :
    l.takeWhile p = l :=
  List.takeWhile_eq_self_iff.mpr (by simpa [List.all_eq_true] using h)

theorem matchKeyLabel_of_wordchar {l : Str} (h1 : l ≠ [])
    (h2 : l.all isWordChar = true) :
    matchKeyLabel ("Key label: ".data ++ l) = some l := by
  unfold matchKeyLabel
  rw [dropPre_append]
  simp [takeWhile_all h2, h1]

theorem matchDataLine_of_hexsp {f : Str} (h1 : f ≠ [])
    (h2 : f.all isHexSp = true) :
    matchDataLine (' ' :: f) = some f := by
  unfold matchDataLine
  simp [takeWhile_all h2, h1]

theorem splitNl_ne_nil (s : Str) : splitNl s ≠ [] := by
  induction s with
  | nil => simp [splitNl]
  | cons c rest ih =>
    by_cases h : c = '\n'
    · simp [splitNl, h]
    · simp only [splitNl, h, if_false]
      cases splitNl rest <;> simp

theorem splitNl_append_nl {a : Str} (t : Str) (h : '\n' ∉ a) :
    splitNl (a ++ '\n' :: t) = a :: splitNl t := by
  induction a with
  | nil => simp [splitNl]
  | cons c a ih =>
    have hc : c ≠ '\n' := fun hc => h (hc ▸ List.mem_cons_self c a)
    have ha : '\n' ∉ a := fun hm => h (List.mem_cons_of_mem c hm)
    simp only [List.cons_append, splitNl, hc, if_false]
    rw [show a.append ('\n' :: t) = a ++ '\n' :: t from rfl, ih ha]

theorem joinNl_cons (a : Str) (rest : List Str) :
    joinNl (a :: rest) = a ++ '\n' :: joinNl rest := by
  simp [joinNl]

theorem pySplitlines_joinNl (lines : List Str) (h : ∀ l ∈ lines, '\n' ∉ l) :
    pySplitlines (joinNl lines) = lines := by
  have key : splitNl (joinNl lines) = lines ++ [[]] := by
    induction lines with
    | nil => simp [joinNl, splitNl]
    | cons a rest ih =>
      rw [joinNl_cons, splitNl_append_nl _ (h a (List.mem_cons_self a rest)),
        ih (fun l hl => h l (List.mem_cons_of_mem a hl))]
      rfl
  unfold pySplitlines
  rw [key]
  simp

theorem replace_nl_cons (t : Str) :
    pyReplaceSpaceNl ('\n' :: t) = '\n' :: pyReplaceSpaceNl t := by
  cases t <;> simp [pyReplaceSpaceNl]

theorem replace_append_nl :
    ∀ a : Str, '\n' ∉ a → a.getLast? ≠ some ' ' →
      ∀ t, pyReplaceSpaceNl (a ++ '\n' :: t) = a ++ '\n' :: pyReplaceSpaceNl t := by
  intro a
  induction a with
  | nil => exact fun _ _ t => replace_nl_cons t
  | cons c a ih =>
    intro h1 h2 t
    cases a with
    | nil =>
      have hc : c ≠ ' ' := by simpa using h2
      simp only [List.nil_append, List.cons_append]
      simp [pyReplaceSpaceNl, hc, replace_nl_cons]
    | cons d a' =>
      have hd : ¬(c = ' ' ∧ d = '\n') := fun hcd => h1 (by simp [hcd.2])
      have h1' : '\n' ∉ d :: a' := fun hm => h1 (List.mem_cons_of_mem c hm)
      have h2' : (d :: a').getLast? ≠ some ' ' := by
        rwa [List.getLast?_cons_cons] at h2
      simp only [List.cons_append]
      rw [pyReplaceSpaceNl, if_neg hd]
      have := ih h1' h2' t
      simp only [List.cons_append] at this
      rw [this]

theorem replace_joinNl (lines : List Str)
    (h : ∀ l ∈ lines, '\n' ∉ l ∧ l.getLast? ≠ some ' ') :
    pyReplaceSpaceNl (joinNl lines) = joinNl lines := by
  induction lines with
  | nil => rfl
  | cons a rest ih =>
    rw [joinNl_cons,
      replace_append_nl a (h a (List.mem_cons_self a rest)).1
        (h a (List.mem_cons_self a rest)).2,
      ih (fun l hl => h l (List.mem_cons_of_mem a hl))]

/-! ## Helper lemmas: the FSM on well-formed blocks -/

theorem fsmStep_label (s : FsmSt) (hs : s.inData = false) {l : Str}
    (h1 : l ≠ []) (h2 : l.all isWordChar = true) :
    fsmStep s ("Key label: ".data ++ l) = { s with label := some l } := by
  have hm := matchKeyLabel_of_wordchar h1 h2
  set line := "Key label: ".data ++ l with hline
  simp [fsmStep, hs, hm]

theorem fsmStep_header (s : FsmSt) (hs : s.inData = false) :
    fsmStep s "Data :".data = { s with inData := true } := by
  have h1 : matchKeyLabel "Data :".data = none := by decide
  have h2 : matchDataHeader "Data :".data = true := by decide
  simp [fsmStep, hs, h1, h2]

theorem fsmStep_frag (s : FsmSt) (hs : s.inData = true) {f : Str}
    (h1 : f ≠ []) (h2 : f.all isHexSp = true) :
    fsmStep s (' ' :: f) = { s with data := s.data ++ [f] } := by
  have hm := matchDataLine_of_hexsp h1 h2
  set line := ' ' :: f with hline
  simp [fsmStep, hs, hm]

theorem fsmStep_blank_record (l : Str) (hl : l ≠ []) (acc : List Str)
    (hacc : acc ≠ []) (rows : List (Str × List Str)) :
    fsmStep ⟨true, some l, acc, rows⟩ [] = ⟨false, none, [], rows ++ [(l, acc)]⟩ := by
  obtain ⟨c, cs, rfl⟩ := List.exists_cons_of_ne_nil hl
  obtain ⟨d, ds, rfl⟩ := List.exists_cons_of_ne_nil hacc
  simp [fsmStep, matchDataLine, appendRecord]

theorem fsm_data_loop (l : Str) (hl : l ≠ []) :
    ∀ frags : List Str, (∀ f ∈ frags, f ≠ [] ∧ f.all isHexSp = true) →
      ∀ (acc : List Str) (rows : List (Str × List Str)), acc ≠ [] ∨ frags ≠ [] →
        List.foldl fsmStep ⟨true, some l, acc, rows⟩
            (frags.map (fun f => ' ' :: f) ++ [[]]) =
          ⟨false, none, [], rows ++ [(l, acc ++ frags)]⟩ := by
  intro frags
  induction frags with
  | nil =>
    intro _ acc rows hne
    have hacc : acc ≠ [] := by
      rcases hne with h | h
      · exact h
      · simp at h
    simp only [List.map_nil, List.nil_append, List.foldl_cons, List.foldl_nil]
    rw [fsmStep_blank_record l hl acc hacc rows]
    simp
  | cons f fs ih =>
    intro hf acc rows _
    simp only [List.map_cons, List.cons_append, List.foldl_cons]
    rw [fsmStep_frag _ rfl (hf f (List.mem_cons_self f fs)).1
      (hf f (List.mem_cons_self f fs)).2]
    have := ih (fun g hg => hf g (List.mem_cons_of_mem f hg)) (acc ++ [f]) rows
      (Or.inl (by simp))
    simp only at this
    rw [this]
    simp

theorem fsm_block (b : Str × List Str) (rows : List (Str × List Str))
    (hl1 : b.1 ≠ []) (hl2 : b.1.all isWordChar = true)
    (hfs : b.2 ≠ []) (hf : ∀ f ∈ b.2, f ≠ [] ∧ f.all isHexSp = true) :
    List.foldl fsmStep ⟨false, none, [], rows⟩ (blockLines b) =
      ⟨false, none, [], rows ++ [b]⟩ := by
  unfold blockLines
  simp only [List.foldl_cons]
  rw [fsmStep_label _ rfl hl1 hl2, fsmStep_header _ rfl]
  have := fsm_data_loop b.1 hl1 b.2 hf [] rows (Or.inr hfs)
  simp only [List.nil_append] at this
  rw [this]

theorem fsm_blocks :
    ∀ (blocks : List (Str × List Str)) (rows : List (Str × List Str)),
      (∀ b ∈ blocks, b.1 ≠ [] ∧ b.1.all isWordChar = true ∧ b.2 ≠ [] ∧
        ∀ f ∈ b.2, f ≠ [] ∧ f.all isHexSp = true) →
      List.foldl fsmStep ⟨false, none, [], rows⟩ (blocks.flatMap blockLines) =
        ⟨false, none, [], rows ++ blocks⟩ := by
  intro blocks
  induction blocks with
  | nil => intro rows _; simp
  | cons b bs ih =>
    intro rows h
    obtain ⟨h1, h2, h3, h4⟩ := h b (List.mem_cons_self b bs)
    rw [List.flatMap_cons, List.foldl_append, fsm_block b rows h1 h2 h3 h4,
      ih (rows ++ [b]) (fun b' hb' => h b' (List.mem_cons_of_mem b hb'))]
    simp

theorem runFsm_blocks (blocks : List (Str × List Str))
    (h : ∀ b ∈ blocks, b.1 ≠ [] ∧ b.1.all isWordChar = true ∧ b.2 ≠ [] ∧
      ∀ f ∈ b.2, f ≠ [] ∧ f.all isHexSp = true) :
    runFsm (blocks.flatMap blockLines) = blocks := by
  unfold runFsm initFsm
  rw [fsm_blocks blocks [] h]
  simp [appendRecord]

/-! ## Helper lemmas: dicts built from distinct keys -/

theorem dictInsert_not_mem (d : Dict) (k v : Str) (h : ∀ p ∈ d, p.1 ≠ k) :
    dictInsert d k v = d ++ [(k, v)] := by
  have hany : (d.any fun p => p.1 == k) = false := by
    rw [List.any_eq_false]
    intro p hp
    simpa using h p hp
  unfold dictInsert
  rw [hany]
  simp

theorem dictOf_go :
    ∀ (pairs : List (Str × Str)) (acc : Dict),
      (pairs.map fun p => p.1).Nodup →
      (∀ p ∈ acc, ∀ q ∈ pairs, p.1 ≠ q.1) →
      pairs.foldl (fun d p => dictInsert d p.1 p.2) acc = acc ++ pairs := by
  intro pairs
  induction pairs with
  | nil => intro acc _ _; simp
  | cons q qs ih =>
    intro acc hnd hdisj
    simp only [List.foldl_cons]
    rw [dictInsert_not_mem acc q.1 q.2
      (fun p hp => hdisj p hp q (List.mem_cons_self q qs))]
    have hq1 : q.1 ∉ qs.map fun p => p.1 := by
      have := hnd
      simp only [List.map_cons, List.nodup_cons] at this
      exact this.1
    rw [ih (acc ++ [q]) (by simpa [List.nodup_cons] using hnd.of_cons) ?_]
    · simp
    · intro p hp r hr
      rcases List.mem_append.mp hp with hp | hp
      · exact hdisj p hp r (List.mem_cons_of_mem q hr)
      · have hpq : p = q := by simpa using hp
        subst hpq
        intro hpr
        exact hq1 (hpr ▸ List.mem_map_of_mem (fun p => p.1) hr)

theorem dictOf_nodup (pairs : List (Str × Str))
    (h : (pairs.map fun p => p.1).Nodup) : dictOf pairs = pairs := by
  unfold dictOf
  rw [dictOf_go pairs [] h (by simp)]
  simp

/-- The last element of a list satisfies any predicate all elements do. -/
theorem getLast?_all {p : Char → Bool} :
    ∀ {l : Str}, l.all p = true → ∀ {c : Char}, l.getLast? = some c → p c = true := by
  intro l
  induction l with
  | nil => intro _ c hc; cases hc
  | cons a t ih =>
    intro h c hc
    cases t with
    | nil =>
      simp only [List.getLast?_singleton, Option.some.injEq] at hc
      subst hc
      simpa using h
    | cons b t' =>
      rw [List.getLast?_cons_cons] at hc
      have ht : (b :: t').all p = true := by
        simp only [List.all_cons, Bool.and_eq_true] at h ⊢
        exact h.2
      exact ih ht hc

/-- Every line of a well-formed report is newline-free and does not end in
a space, so the preprocessing and line splitting leave it intact. -/
theorem blockLines_line_ok (blocks : List (Str × List Str))
    (hl : ∀ b ∈ blocks, b.1 ≠ [] ∧ b.1.all isWordChar = true)
    (hf : ∀ b ∈ blocks, ∀ f ∈ b.2, f ≠ [] ∧ f.all isHexSp = true ∧
      f.getLast? ≠ some ' ') :
    ∀ line ∈ blocks.flatMap blockLines, '\n' ∉ line ∧ line.getLast? ≠ some ' ' := by
  intro line hline
  obtain ⟨b, hb, hmem⟩ := List.mem_flatMap.mp hline
  unfold blockLines at hmem
  rcases List.mem_cons.mp hmem with rfl | hmem
  · constructor
    · intro hnl
      rcases List.mem_append.mp hnl with h | h
      · exact absurd h (by decide)
      · have := List.all_eq_true.mp (hl b hb).2 '\n' h
        exact absurd this (by decide)
    · rw [List.getLast?_append_of_ne_nil _ (hl b hb).1]
      intro hsp
      have := getLast?_all (hl b hb).2 hsp
      exact absurd this (by decide)
  rcases List.mem_cons.mp hmem with rfl | hmem
  · exact ⟨by decide, by decide⟩
  rcases List.mem_append.mp hmem with hmem | hmem
  · obtain ⟨f, hfmem, rfl⟩ := List.mem_map.mp hmem
    obtain ⟨hf1, hf2, hf3⟩ := hf b hb f hfmem
    constructor
    · intro hnl
      rcases List.mem_cons.mp hnl with h | h
      · cases h
      · have := List.all_eq_true.mp hf2 '\n' h
        exact absurd this (by decide)
    · rw [show ' ' :: f = [' '] ++ f from rfl,
        List.getLast?_append_of_ne_nil _ hf1]
      exact hf3
  · have : line = [] := by simpa using hmem
    subst this
    exact ⟨by simp, by simp⟩

/-- Parser correctness on well-formed reports: one record per block, user
the label verbatim, material the space-stripped concatenation of the
block's hex fragments. -/
theorem parseGot_renderBlocks (blocks : List (Str × List Str))
    (hl : ∀ b ∈ blocks, b.1 ≠ [] ∧ b.1.all isWordChar = true)
    (hnd : (blocks.map fun b => b.1).Nodup)
    (hf : ∀ b ∈ blocks, b.2 ≠ [] ∧ ∀ f ∈ b.2, f ≠ [] ∧ f.all isHexSp = true ∧
      f.getLast? ≠ some ' ') :
    parseGot (renderBlocks blocks) = blocks.map fun b => (b.1, cleanData b.2) := by
  have hlines := blockLines_line_ok blocks hl (fun b hb => (hf b hb).2)
  unfold parseGot renderBlocks
  rw [replace_joinNl _ hlines,
    pySplitlines_joinNl _ (fun l hl' => (hlines l hl').1),
    runFsm_blocks blocks (fun b hb =>
      ⟨(hl b hb).1, (hl b hb).2, (hf b hb).1,
        fun f hfm => ⟨((hf b hb).2 f hfm).1, ((hf b hb).2 f hfm).2.1⟩⟩)]
  exact dictOf_nodup _ (by simpa [List.map_map, Function.comp] using hnd)

/-! ## Helper lemmas: every parsed label is a non-empty word-char string -/

theorem matchKeyLabel_wordchar {line l : Str} (h : matchKeyLabel line = some l) :
    l ≠ [] ∧ l.all isWordChar = true := by
  unfold matchKeyLabel at h
  cases hd : dropPre "Key label: ".data line with
  | none => rw [hd] at h; cases h
  | some rest =>
    rw [hd] at h
    simp only at h
    by_cases hw : rest.takeWhile isWordChar = []
    · rw [if_pos hw] at h; cases h
    · rw [if_neg hw] at h
      cases h
      refine ⟨hw, List.all_eq_true.mpr fun c hc => ?_⟩
      exact List.mem_takeWhile_imp hc

/-- The state invariant: every emitted row label and any pending label is a
non-empty word-char string. -/
def FsmLabelsOk (s : FsmSt) : Prop :=
  (∀ r ∈ s.rows, r.1 ≠ [] ∧ r.1.all isWordChar = true) ∧
  (∀ l, s.label = some l → l ≠ [] ∧ l.all isWordChar = true)

theorem appendRecord_labelsOk {s : FsmSt} (h : FsmLabelsOk s) :
    FsmLabelsOk (appendRecord s) := by
  obtain ⟨hr, hl⟩ := h
  unfold appendRecord
  cases hlb : s.label with
  | none => exact ⟨by simpa using hr, by simp⟩
  | some l =>
    cases l with
    | nil => exact ⟨by simpa using hr, by simp⟩
    | cons c cs =>
      cases hd : s.data with
      | nil => exact ⟨by simpa using hr, by simp⟩
      | cons d ds =>
        refine ⟨fun r hrm => ?_, by simp⟩
        simp only [List.mem_append, List.mem_singleton] at hrm
        rcases hrm with hrm | rfl
        · exact hr r hrm
        · exact hl (c :: cs) hlb

theorem fsmStep_labelsOk {s : FsmSt} (line : Str) (h : FsmLabelsOk s) :
    FsmLabelsOk (fsmStep s line) := by
  obtain ⟨hr, hl⟩ := h
  unfold fsmStep
  by_cases hid : s.inData
  · rw [if_pos hid]
    cases matchDataLine line with
    | some frag => exact ⟨hr, hl⟩
    | none =>
      simp only
      by_cases hb : line = []
      · rw [if_pos hb]
        have := appendRecord_labelsOk (s := s) ⟨hr, hl⟩
        exact ⟨this.1, this.2⟩
      · rw [if_neg hb]; exact ⟨hr, hl⟩
  · rw [if_neg hid]
    cases hm : matchKeyLabel line with
    | some l =>
      refine ⟨hr, fun l' hl' => ?_⟩
      simp only [Option.some.injEq] at hl'
      subst hl'
      exact matchKeyLabel_wordchar hm
    | none =>
      simp only
      by_cases hh : matchDataHeader line = true
      · rw [if_pos hh]; exact ⟨hr, hl⟩
      · rw [if_neg hh]; exact ⟨hr, hl⟩

theorem runFsm_labelsOk (lines : List Str) :
    ∀ r ∈ runFsm lines, r.1 ≠ [] ∧ r.1.all isWordChar = true := by
  have key : ∀ (ls : List Str) (s : FsmSt), FsmLabelsOk s →
      FsmLabelsOk (ls.foldl fsmStep s) := by
    intro ls
    induction ls with
    | nil => exact fun s h => h
    | cons a t ih => exact fun s h => ih _ (fsmStep_labelsOk a h)
  have h0 : FsmLabelsOk initFsm := ⟨by simp [initFsm], by simp [initFsm]⟩
  exact (appendRecord_labelsOk (key lines initFsm h0)).1

theorem dictInsert_key_mem (d : Dict) (k v : Str) :
    ∀ p ∈ dictInsert d k v, p.1 = k ∨ p.1 ∈ d.map fun q => q.1 := by
  intro p hp
  unfold dictInsert at hp
  by_cases hany : (d.any fun p => p.1 == k) = true
  · rw [if_pos hany] at hp
    obtain ⟨q, hq, hpq⟩ := List.mem_map.mp hp
    by_cases hqk : q.1 == k
    · rw [if_pos hqk] at hpq; subst hpq; exact Or.inl rfl
    · rw [if_neg hqk] at hpq; subst hpq
      exact Or.inr (List.mem_map_of_mem _ hq)
  · rw [if_neg hany] at hp
    rcases List.mem_append.mp hp with hp | hp
    · exact Or.inr (List.mem_map_of_mem _ hp)
    · have : p = (k, v) := by simpa using hp
      subst this; exact Or.inl rfl

theorem dictOf_key_mem :
    ∀ (pairs : List (Str × Str)) (p : Str × Str), p ∈ dictOf pairs →
      p.1 ∈ pairs.map fun q => q.1 := by
  have key : ∀ (pairs : List (Str × Str)) (acc : Dict) (p : Str × Str),
      p ∈ pairs.foldl (fun d q => dictInsert d q.1 q.2) acc →
      p.1 ∈ acc.map (fun q => q.1) ∨ p.1 ∈ pairs.map fun q => q.1 := by
    intro pairs
    induction pairs with
    | nil => intro acc p hp; exact Or.inl (List.mem_map_of_mem _ hp)
    | cons q qs ih =>
      intro acc p hp
      simp only [List.foldl_cons] at hp
      rcases ih _ p hp with h | h
      · obtain ⟨r, hr, hrk⟩ := List.mem_map.mp h
        rcases dictInsert_key_mem acc q.1 q.2 r hr with h' | h'
        · exact Or.inr (by rw [← hrk, h']; simp)
        · exact Or.inl (hrk ▸ h')
      · exact Or.inr (List.mem_cons_of_mem _ h)
  intro pairs p hp
  rcases key pairs [] p hp with h | h
  · simp at h
  · exact h

/-! ## Helper lemmas: dict lookup and the diff sets -/

theorem pyLookup_mem {d : Dict} {k v : Str} (h : pyLookup d k = some v) :
    (k, v) ∈ d := by
  unfold pyLookup at h
  cases hf : d.find? (fun p => p.1 == k) with
  | none => rw [hf] at h; cases h
  | some p =>
    rw [hf] at h
    simp only [Option.map_some', Option.some.injEq] at h
    have hmem := List.mem_of_find?_eq_some hf
    have hkey : p.1 = k := by simpa using List.find?_some hf
    have : p = (k, v) := Prod.ext hkey h
    exact this ▸ hmem

theorem pyLookup_isSome_of_mem {d : Dict} {k v : Str} (h : (k, v) ∈ d) :
    (pyLookup d k).isSome = true := by
  unfold pyLookup
  cases hf : d.find? (fun p => p.1 == k) with
  | some p => simp
  | none =>
    have := List.find?_eq_none.mp hf (k, v) h
    simp at this

theorem pyLookup_eq_some_of_nodup :
    ∀ {d : Dict}, NodupKeys d → ∀ {k v : Str}, (k, v) ∈ d →
      pyLookup d k = some v := by
  intro d
  induction d with
  | nil => intro _ k v h; cases h
  | cons p t ih =>
    intro hnd k v h
    have hnd' : p.1 ∉ t.map (fun q => q.1) ∧ NodupKeys t := by
      simpa [NodupKeys, List.nodup_cons] using hnd
    rcases List.mem_cons.mp h with rfl | h
    · unfold pyLookup
      rw [List.find?_cons]
      simp only [beq_self_eq_true]
      rfl
    · have hk : (p.1 == k) = false := by
        simp only [beq_eq_false_iff_ne, ne_eq]
        intro he
        exact hnd'.1 (he ▸ List.mem_map_of_mem (fun q => q.1) h)
      unfold pyLookup
      rw [List.find?_cons]
      simp only [hk, Bool.false_eq_true, if_false]
      exact ih hnd'.2 h

theorem pyLookup_eq_none {d : Dict} {k : Str} :
    pyLookup d k = none ↔ ∀ p ∈ d, p.1 ≠ k := by
  unfold pyLookup
  rw [Option.map_eq_none', List.find?_eq_none]
  exact forall₂_congr fun p _ => by rw [beq_iff_eq]

theorem dictEq_true_iff {got wanted : Dict} (h1 : NodupKeys got)
    (h2 : NodupKeys wanted) :
    dictEq got wanted = true ↔ ∀ u, pyLookup got u = pyLookup wanted u := by
  unfold dictEq
  rw [Bool.and_eq_true, List.all_eq_true, List.all_eq_true]
  constructor
  · rintro ⟨hg, hw⟩ u
    cases hgu : pyLookup got u with
    | some v =>
      have := hg (u, v) (pyLookup_mem hgu)
      rw [beq_iff_eq] at this
      exact this.symm
    | none =>
      cases hwu : pyLookup wanted u with
      | none => rfl
      | some w =>
        have := hw (u, w) (pyLookup_mem hwu)
        rw [beq_iff_eq] at this
        rw [this] at hgu
        cases hgu
  · intro h
    refine ⟨fun p hp => ?_, fun p hp => ?_⟩
    · rw [beq_iff_eq, ← h p.1]
      exact pyLookup_eq_some_of_nodup h1 hp
    · rw [beq_iff_eq, h p.1]
      exact pyLookup_eq_some_of_nodup h2 hp

theorem diffImport_eq_nil_iff {got wanted : Dict} :
    diffImport got wanted = [] ↔ ∀ p ∈ wanted, pyLookup got p.1 = some p.2 := by
  unfold diffImport
  rw [List.filter_eq_nil_iff]
  refine forall₂_congr fun p _ => ?_
  rw [Bool.not_eq_true, Bool.not_eq_false', beq_iff_eq]

theorem diffRemove_eq_nil_iff {got wanted : Dict} :
    diffRemove got wanted = [] ↔ ∀ p ∈ got, (pyLookup wanted p.1).isSome = true := by
  unfold diffRemove
  rw [List.filter_eq_nil_iff]
  refine forall₂_congr fun p _ => ?_
  cases pyLookup wanted p.1 <;> simp

theorem diff_empty_iff {got wanted : Dict} (h1 : NodupKeys got)
    (h2 : NodupKeys wanted) :
    (diffImport got wanted = [] ∧ diffRemove got wanted = []) ↔
      ∀ u, pyLookup got u = pyLookup wanted u := by
  rw [diffImport_eq_nil_iff, diffRemove_eq_nil_iff]
  constructor
  · rintro ⟨hi, hr⟩ u
    cases hwu : pyLookup wanted u with
    | some w => exact (hi (u, w) (pyLookup_mem hwu)).trans rfl
    | none =>
      cases hgu : pyLookup got u with
      | none => rfl
      | some v =>
        have := hr (u, v) (pyLookup_mem hgu)
        rw [hwu] at this
        cases this
  · intro h
    refine ⟨fun p hp => ?_, fun p hp => ?_⟩
    · rw [h p.1]
      exact pyLookup_eq_some_of_nodup h2 hp
    · rw [← h p.1, pyLookup_eq_some_of_nodup h1 hp]
      rfl

/-! ## Helper lemmas: the conversion output format -/

theorem specUpperHex_cons (b : Nat) (t : List Nat) :
    specUpperHex (b :: t) =
      hexDigitUpper (b / 16 % 16) :: hexDigitUpper (b % 16) :: specUpperHex t := by
  simp [specUpperHex, List.flatMap_cons]

theorem pyUpper_hexlify : ∀ B : List Nat, pyUpper (hexlify B) = specUpperHex B := by
  have upLow : ∀ n < 16, asciiUpper (hexDigitLower n) = hexDigitUpper n := by decide
  intro B
  induction B with
  | nil => rfl
  | cons b t ih =>
    have h1 : b / 16 % 16 < 16 := Nat.mod_lt _ (by norm_num)
    have h2 : b % 16 < 16 := Nat.mod_lt _ (by norm_num)
    calc pyUpper (hexlify (b :: t))
        = asciiUpper (hexDigitLower (b / 16 % 16)) ::
            asciiUpper (hexDigitLower (b % 16)) :: pyUpper (hexlify t) := by
          simp [pyUpper, hexlify, List.flatMap_cons]
      _ = hexDigitUpper (b / 16 % 16) :: hexDigitUpper (b % 16) :: specUpperHex t := by
          rw [upLow _ h1, upLow _ h2, ih]
      _ = specUpperHex (b :: t) := (specUpperHex_cons b t).symm

theorem specUpperHex_chars : ∀ B : List Nat,
    (specUpperHex B).all isUpperHexChar = true := by
  have hd : ∀ n < 16, isUpperHexChar (hexDigitUpper n) = true := by decide
  intro B
  induction B with
  | nil => rfl
  | cons b t ih =>
    have h1 : b / 16 % 16 < 16 := Nat.mod_lt _ (by norm_num)
    have h2 : b % 16 < 16 := Nat.mod_lt _ (by norm_num)
    rw [specUpperHex_cons]
    simp only [List.all_cons, Bool.and_eq_true]
    exact ⟨hd _ h1, hd _ h2, ih⟩

theorem specUpperHex_inj :
    ∀ B B' : List Nat, B.all (fun b => b < 256) = true →
      B'.all (fun b => b < 256) = true →
      specUpperHex B = specUpperHex B' → B = B' := by
  have digitInj : ∀ m < 16, ∀ n < 16, hexDigitUpper m = hexDigitUpper n → m = n := by
    decide
  intro B
  induction B with
  | nil =>
    intro B' _ _ h
    cases B' with
    | nil => rfl
    | cons b t => rw [specUpperHex_cons] at h; cases h
  | cons b t ih =>
    intro B' hB hB' h
    cases B' with
    | nil => rw [specUpperHex_cons] at h; cases h
    | cons b' t' =>
      rw [specUpperHex_cons, specUpperHex_cons] at h
      injection h with h1 h'
      injection h' with h2 h3
      simp only [List.all_cons, Bool.and_eq_true, decide_eq_true_eq] at hB hB'
      have e1 := digitInj _ (Nat.mod_lt _ (by norm_num)) _
        (Nat.mod_lt _ (by norm_num)) h1
      have e2 := digitInj _ (Nat.mod_lt _ (by norm_num)) _
        (Nat.mod_lt _ (by norm_num)) h2
      have hb : b = b' := by
        have hb1 := hB.1
        have hb2 := hB'.1
        omega
      rw [hb, ih t' hB.2 hB'.2 h3]

theorem ssh2cisco_spec (keygen : Str → ToolResult) (sshkey : Str) (B : List Nat)
    (h0 : (keygen sshkey).returncode = 0)
    (hB : b64decode (joinedPayload (keygen sshkey).stdout) = some B) :
    ssh2cisco keygen sshkey = .ok (specUpperHex B) := by
  unfold ssh2cisco
  rw [h0]
  simp only [bne_self_eq_false, Bool.false_eq_true, if_false]
  rw [hB]
  simp only
  rw [pyUpper_hexlify]

theorem ssh2cisco_tool_error (keygen : Str → ToolResult) (k : Str)
    (h : (keygen k).returncode ≠ 0) :
    ssh2cisco keygen k = .error (.toolFailed k) := by
  unfold ssh2cisco
  rw [if_pos (by simpa using h)]

theorem mainRun_conv_error (out : Str) (keys : List (Str × Str))
    (keygen : Str → ToolResult) (cm : Bool) (e : ConvErr)
    (h : computeWanted keygen keys = .error e) :
    mainRun out keys keygen cm = .error (.conv e) := by
  unfold mainRun
  rw [h]

/-! ## Small step lemma used by the C2 analysis -/

/-- A blank line in `GetData` with an empty data list records nothing: the
Required `Data` value is unset, so the row is silently skipped. -/
theorem fsmStep_blank_nodata (lab : Option Str) (rows : List (Str × List Str)) :
    fsmStep ⟨true, lab, [], rows⟩ [] = ⟨false, none, [], rows⟩ := by
  cases lab with
  | none => rfl
  | some l =>
    cases l with
    | nil => rfl
    | cons c cs => rfl

/-! ## The claims -/

/-- C1: the claim says the apply phase issues the key-import command exactly
for the users in `diff.toImport` and no remote command for a user whose
current and desired keyMaterial are identical.  The code refutes this: with
`alice` converged (current = desired = `414141`) and `bob` new, the run
issues an import command for `alice` as well — referencing `bob`'s staged
file — because the `send_command` call sits outside the
`if user not in got or wanted[user] != got[user]` block. -/
theorem c1_import_sent_for_unchanged_user :
    pyLookup (parseGot outAliceOnly) "alice".data = some "414141".data ∧
    ssh2cisco sampleKeygen keyAlice = .ok "414141".data ∧
    mainRun outAliceOnly keysBobAlice sampleKeygen false =
      .ok ⟨true, eventsBobAlice⟩ ∧
    Event.send (keyImportCmd "alice".data (dstPath "bob".data))
      "yes/no".data "yes".data ∈ eventsBobAlice :=
  ⟨rfl, rfl, rfl, by decide⟩

/-- C2 counterexample: on device output in which label `vincent` starts a
record but the required hex-data section is missing, parse raises nothing —
the record is silently dropped, the parsed current set is empty, and
reconciliation proceeds (the run completes normally), contradicting the
claim that a `ParseError` is raised and reconciliation never proceeds. -/
theorem c2_missing_data_no_error_at_vincent :
    parseGot (outMissingData "vincent".data) = [] ∧
    mainRun (outMissingData "vincent".data) [] sampleKeygen false =
      .ok ⟨false, []⟩ :=
  ⟨rfl, rfl⟩

/-- C2 amended: for every device output consisting of a label line that
starts a record whose required hex-data section is missing, parse raises no
error and silently treats the record as absent (the parsed current state is
empty), and reconciliation proceeds to the diff against that empty current
state. -/
theorem c2_missing_data_silently_dropped (l : Str) (h1 : l ≠ [])
    (h2 : l.all isWordChar = true) :
    parseGot (outMissingData l) = [] ∧
    ∀ (keys : List (Str × Str)) (keygen : Str → ToolResult) (w : Dict) (cm : Bool),
      computeWanted keygen keys = .ok w →
      mainRun (outMissingData l) keys keygen cm = reconcile [] w (dictOf keys) cm := by
  have hlines : ∀ line ∈ ["Key label: ".data ++ l, "Data :".data, ([] : Str)],
      '\n' ∉ line ∧ line.getLast? ≠ some ' ' := by
    intro line hline
    rcases List.mem_cons.mp hline with rfl | hline
    · constructor
      · intro hnl
        rcases List.mem_append.mp hnl with h | h
        · exact absurd h (by decide)
        · exact absurd (List.all_eq_true.mp h2 '\n' h) (by decide)
      · rw [List.getLast?_append_of_ne_nil _ h1]
        intro hsp
        exact absurd (getLast?_all h2 hsp) (by decide)
    rcases List.mem_cons.mp hline with rfl | hline
    · exact ⟨by decide, by decide⟩
    · have : line = [] := by simpa using hline
      subst this
      exact ⟨by simp, by simp⟩
  have hparse : parseGot (outMissingData l) = [] := by
    unfold outMissingData parseGot
    rw [replace_joinNl _ hlines, pySplitlines_joinNl _ (fun x hx => (hlines x hx).1)]
    unfold runFsm
    simp only [List.foldl_cons, List.foldl_nil]
    rw [fsmStep_label initFsm rfl h1 h2, fsmStep_header _ rfl]
    dsimp only [initFsm]
    rw [fsmStep_blank_nodata]
    rfl
  refine ⟨hparse, fun keys keygen w cm hw => ?_⟩
  unfold mainRun
  rw [hw, hparse]

/-- C3: when check mode is on or the diff is empty, reconcile returns
immediately with the computed changed flag and no remote side effects at
all — no file staged, no import or zeroize command sent. -/
theorem c3_dry_run_never_touches_device (got wanted keysDict : Dict) (cm : Bool)
    (h : cm = true ∨ dictEq got wanted = true) :
    reconcile got wanted keysDict cm = .ok ⟨changedFlag got wanted, []⟩ := by
  unfold reconcile
  rcases h with rfl | h
  · simp
  · simp [changedFlag, h]

/-- C3 witness: a converged pair in real (non-check) mode exits immediately
with `changed = false` and zero events. -/
theorem c3_dry_run_never_touches_device_witness :
    (false = true ∨ dictEq [("alice".data, "414141".data)]
      [("alice".data, "414141".data)] = true) ∧
    reconcile [("alice".data, "414141".data)] [("alice".data, "414141".data)]
      [] false = .ok ⟨changedFlag [("alice".data, "414141".data)]
        [("alice".data, "414141".data)], []⟩ :=
  ⟨Or.inr rfl,
    c3_dry_run_never_touches_device _ _ [] false (Or.inr rfl)⟩

/-- C4: the claim says a second run over the device state produced by a
first successful apply reports `changed = false`.  The code refutes this:
after the first run (which succeeds, `changed = true`) the device holds
`bob`'s key for both users — the stray import command gave `alice` the
contents of `bob`'s staged file — so the second real run crashes with
`NameError` (`dst` referenced before assignment on the now-unchanged first
user), and a second check-mode run still reports `changed = true`. -/
theorem c4_second_run_still_changed :
    mainRun outAliceOnly keysBobAlice sampleKeygen false =
      .ok ⟨true, eventsBobAlice⟩ ∧
    mainRun (renderDevice (devAfter specUpperHex
        [("alice".data, "414141".data)] eventsBobAlice))
      keysBobAlice sampleKeygen false = .error .nameError ∧
    mainRun (renderDevice (devAfter specUpperHex
        [("alice".data, "414141".data)] eventsBobAlice))
      keysBobAlice sampleKeygen true = .ok ⟨true, []⟩ :=
  ⟨rfl, rfl, rfl⟩

/-- C5: the reported `changed` flag is true exactly when the diff (import
set, remove set) is non-empty, and the diff is empty exactly when current
and desired agree as user-to-keyMaterial mappings. -/
theorem c5_changed_iff_diff_nonempty (got wanted : Dict)
    (h1 : NodupKeys got) (h2 : NodupKeys wanted) :
    (changedFlag got wanted = true ↔
      ¬(diffImport got wanted = [] ∧ diffRemove got wanted = [])) ∧
    ((diffImport got wanted = [] ∧ diffRemove got wanted = []) ↔
      ∀ u, pyLookup got u = pyLookup wanted u) := by
  have hd := diff_empty_iff h1 h2
  have he := dictEq_true_iff h1 h2
  refine ⟨?_, hd⟩
  unfold changedFlag
  rw [Bool.not_eq_true']
  constructor
  · intro hfalse hcon
    rw [he.mpr (hd.mp hcon)] at hfalse
    cases hfalse
  · intro hne
    cases hdq : dictEq got wanted with
    | false => rfl
    | true => exact absurd (hd.mpr (he.mp hdq)) hne

instance decNodupKeys (d : Dict) : Decidable (NodupKeys d) := by
  unfold NodupKeys
  infer_instance

/-- C5 witness: one changed pair (`alice` differs) and its evaluation. -/
theorem c5_changed_iff_diff_nonempty_witness :
    NodupKeys [("alice".data, "414141".data)] ∧
    NodupKeys [("alice".data, "424242".data)] ∧
    ((changedFlag [("alice".data, "414141".data)] [("alice".data, "424242".data)] = true ↔
      ¬(diffImport [("alice".data, "414141".data)] [("alice".data, "424242".data)] = [] ∧
        diffRemove [("alice".data, "414141".data)] [("alice".data, "424242".data)] = [])) ∧
     ((diffImport [("alice".data, "414141".data)] [("alice".data, "424242".data)] = [] ∧
       diffRemove [("alice".data, "414141".data)] [("alice".data, "424242".data)] = []) ↔
      ∀ u, pyLookup [("alice".data, "414141".data)] u =
        pyLookup [("alice".data, "424242".data)] u)) :=
  ⟨by decide, by decide,
    c5_changed_iff_diff_nonempty _ _ (by decide) (by decide)⟩

/-- C6: the import and remove sets are disjoint, and a user from either
key set appears in neither exactly when it is present in both sets with
identical keyMaterial. -/
theorem c6_diff_disjoint_and_neither (got wanted : Dict)
    (h1 : NodupKeys got) (h2 : NodupKeys wanted) :
    (∀ u, ¬(u ∈ (diffImport got wanted).map (fun p => p.1) ∧
      u ∈ (diffRemove got wanted).map (fun p => p.1))) ∧
    (∀ u, u ∈ got.map (fun p => p.1) ∨ u ∈ wanted.map (fun p => p.1) →
      ((u ∉ (diffImport got wanted).map (fun p => p.1) ∧
        u ∉ (diffRemove got wanted).map (fun p => p.1)) ↔
        ∃ m, pyLookup got u = some m ∧ pyLookup wanted u = some m)) := by
  constructor
  · rintro u ⟨hi, hr⟩
    obtain ⟨p, hp, hpu⟩ := List.mem_map.mp hi
    obtain ⟨hpw, _⟩ := List.mem_filter.mp hp
    obtain ⟨q, hq, hqu⟩ := List.mem_map.mp hr
    obtain ⟨_, hqc⟩ := List.mem_filter.mp hq
    have hsome : (pyLookup wanted q.1).isSome = true := by
      rw [hqu, ← hpu]
      exact pyLookup_isSome_of_mem (v := p.2) (by simpa using hpw)
    cases hlk : pyLookup wanted q.1 with
    | some w => rw [hlk] at hqc; simp at hqc
    | none => rw [hlk] at hsome; simp at hsome
  · intro u hu
    constructor
    · rintro ⟨hni, hnr⟩
      have hsome : (pyLookup wanted u).isSome = true := by
        rcases hu with hu | hu
        · obtain ⟨q, hq, hqu⟩ := List.mem_map.mp hu
          by_contra hns
          refine hnr (List.mem_map.mpr ⟨q, List.mem_filter.mpr ⟨hq, ?_⟩, hqu⟩)
          rw [hqu]
          cases hlk : pyLookup wanted u with
          | none => rfl
          | some w => rw [hlk] at hns; exact absurd rfl hns
        · obtain ⟨p, hp, hpu⟩ := List.mem_map.mp hu
          rw [← hpu]
          exact pyLookup_isSome_of_mem (v := p.2) (by simpa using hp)
      obtain ⟨m, hm⟩ := Option.isSome_iff_exists.mp hsome
      refine ⟨m, ?_, hm⟩
      by_contra hg
      refine hni (List.mem_map.mpr ⟨(u, m), List.mem_filter.mpr
        ⟨pyLookup_mem hm, ?_⟩, rfl⟩)
      simp only [Bool.not_eq_true', beq_eq_false_iff_ne, ne_eq]
      exact hg
    · rintro ⟨m, hg, hw⟩
      constructor
      · intro hmem
        obtain ⟨p, hp, hpu⟩ := List.mem_map.mp hmem
        obtain ⟨hpw, hpc⟩ := List.mem_filter.mp hp
        have : pyLookup wanted u = some p.2 :=
          pyLookup_eq_some_of_nodup h2 (v := p.2) (by
            rw [← hpu]
            simpa using hpw)
        rw [hw] at this
        injection this with hmp
        rw [← hpu, hmp] at hg
        simp only [Bool.not_eq_true', beq_eq_false_iff_ne, ne_eq] at hpc
        exact hpc hg
      · intro hmem
        obtain ⟨q, hq, hqu⟩ := List.mem_map.mp hmem
        obtain ⟨_, hqc⟩ := List.mem_filter.mp hq
        rw [hqu, hw] at hqc
        cases hqc

/-- C6 witness: `alice` converged, `carol` current-only, `bob` desired-only. -/
theorem c6_diff_disjoint_and_neither_witness :
    NodupKeys [("alice".data, "414141".data), ("carol".data, "EEFF".data)] ∧
    NodupKeys [("alice".data, "414141".data), ("bob".data, "424242".data)] ∧
    ((∀ u, ¬(u ∈ (diffImport [("alice".data, "414141".data), ("carol".data, "EEFF".data)]
        [("alice".data, "414141".data), ("bob".data, "424242".data)]).map (fun p => p.1) ∧
      u ∈ (diffRemove [("alice".data, "414141".data), ("carol".data, "EEFF".data)]
        [("alice".data, "414141".data), ("bob".data, "424242".data)]).map (fun p => p.1))) ∧
    (∀ u, u ∈ [("alice".data, "414141".data), ("carol".data, "EEFF".data)].map (fun p => p.1) ∨
        u ∈ [("alice".data, "414141".data), ("bob".data, "424242".data)].map (fun p => p.1) →
      ((u ∉ (diffImport [("alice".data, "414141".data), ("carol".data, "EEFF".data)]
          [("alice".data, "414141".data), ("bob".data, "424242".data)]).map (fun p => p.1) ∧
        u ∉ (diffRemove [("alice".data, "414141".data), ("carol".data, "EEFF".data)]
          [("alice".data, "414141".data), ("bob".data, "424242".data)]).map (fun p => p.1)) ↔
        ∃ m, pyLookup [("alice".data, "414141".data), ("carol".data, "EEFF".data)] u = some m ∧
          pyLookup [("alice".data, "414141".data), ("bob".data, "424242".data)] u = some m))) :=
  ⟨by decide, by decide,
    c6_diff_disjoint_and_neither _ _ (by decide) (by decide)⟩

/-- C2 witness: the amended statement instantiated at label `vincent` with
an empty desired set in real mode. -/
theorem c2_missing_data_silently_dropped_witness :
    ("vincent".data ≠ [] ∧ "vincent".data.all isWordChar = true) ∧
    parseGot (outMissingData "vincent".data) = [] ∧
    computeWanted sampleKeygen [] = .ok [] ∧
    mainRun (outMissingData "vincent".data) [] sampleKeygen false =
      reconcile [] [] (dictOf []) false := by
  refine ⟨⟨by decide, by decide⟩, ?_, rfl, ?_⟩
  · exact (c2_missing_data_silently_dropped "vincent".data (by decide) (by decide)).1
  · exact (c2_missing_data_silently_dropped "vincent".data (by decide)
      (by decide)).2 [] sampleKeygen [] false rfl

/-- C7: on a well-formed report — one block per user: label line, data
header, hex-fragment lines, blank line — parse returns exactly one record
per block, keyed by the label verbatim, whose material is the block's
fragments concatenated with all embedded whitespace removed. -/
theorem c7_parse_wellformed_blocks (blocks : List (Str × List Str))
    (hl : ∀ b ∈ blocks, b.1 ≠ [] ∧ b.1.all isWordChar = true)
    (hnd : (blocks.map fun b => b.1).Nodup)
    (hf : ∀ b ∈ blocks, b.2 ≠ [] ∧ ∀ f ∈ b.2, f ≠ [] ∧ f.all isHexSp = true ∧
      f.getLast? ≠ some ' ') :
    parseGot (renderBlocks blocks) = blocks.map fun b => (b.1, cleanData b.2) :=
  parseGot_renderBlocks blocks hl hnd hf

/-- Two labelled blocks of three hex lines each (the spec's parser test). -/
def blocksTwo : List (Str × List Str) :=
  [("alice".data, ["AABB CC".data, "DD EE".data, "FF".data]),
   ("bob".data, ["1122".data, "3344".data, "5566".data])]

/-- C7 witness: the two-block three-line report parses to two records with
concatenated whitespace-free hex. -/
theorem c7_parse_wellformed_blocks_witness :
    (∀ b ∈ blocksTwo, b.1 ≠ [] ∧ b.1.all isWordChar = true) ∧
    (blocksTwo.map fun b => b.1).Nodup ∧
    (∀ b ∈ blocksTwo, b.2 ≠ [] ∧ ∀ f ∈ b.2, f ≠ [] ∧ f.all isHexSp = true ∧
      f.getLast? ≠ some ' ') ∧
    parseGot (renderBlocks blocksTwo) = blocksTwo.map fun b => (b.1, cleanData b.2) :=
  ⟨by decide, by decide, by decide,
    c7_parse_wellformed_blocks blocksTwo (by decide) (by decide) (by decide)⟩

/-- C8: when the conversion tool succeeds and its payload decodes to the
key bytes `B`, convert returns exactly those bytes rendered as upper-case
hex with no separators — every output character is an upper-case hex
digit, and the rendering is injective on byte strings, so string equality
suffices for diffing. -/
theorem c8_convert_returns_upper_hex (keygen : Str → ToolResult) (sshkey : Str)
    (B : List Nat) (h0 : (keygen sshkey).returncode = 0)
    (hB : b64decode (joinedPayload (keygen sshkey).stdout) = some B) :
    ssh2cisco keygen sshkey = .ok (specUpperHex B) ∧
    (specUpperHex B).all isUpperHexChar = true ∧
    ∀ B' : List Nat, B.all (fun b => b < 256) = true →
      B'.all (fun b => b < 256) = true →
      specUpperHex B = specUpperHex B' → B = B' :=
  ⟨ssh2cisco_spec keygen sshkey B h0 hB, specUpperHex_chars B,
    fun B' h h' => specUpperHex_inj B B' h h'⟩

/-- C8 witness: `keyAlice` converts through the sample tool to `414141`. -/
theorem c8_convert_returns_upper_hex_witness :
    (sampleKeygen keyAlice).returncode = 0 ∧
    b64decode (joinedPayload (sampleKeygen keyAlice).stdout) = some [65, 65, 65] ∧
    (ssh2cisco sampleKeygen keyAlice = .ok (specUpperHex [65, 65, 65]) ∧
      (specUpperHex [65, 65, 65]).all isUpperHexChar = true ∧
      ∀ B' : List Nat, ([65, 65, 65] : List Nat).all (fun b => b < 256) = true →
        B'.all (fun b => b < 256) = true →
        specUpperHex [65, 65, 65] = specUpperHex B' → [65, 65, 65] = B') :=
  ⟨rfl, rfl, c8_convert_returns_upper_hex sampleKeygen keyAlice [65, 65, 65] rfl rfl⟩

/-- A conversion oracle that always fails (non-zero exit code). -/
def kgFail : Str → ToolResult := fun _ => ⟨1, []⟩

/-- C9: a non-zero exit code of the conversion tool makes convert fail
rather than return a value, and any failure while building the desired set
aborts the whole run with that error — conversion happens before the
check-mode gate and before any device mutation, so no event is issued. -/
theorem c9_conversion_failure_aborts :
    (∀ (keygen : Str → ToolResult) (k : Str), (keygen k).returncode ≠ 0 →
      ssh2cisco keygen k = .error (.toolFailed k)) ∧
    (∀ (out : Str) (keys : List (Str × Str)) (keygen : Str → ToolResult)
      (cm : Bool) (e : ConvErr), computeWanted keygen keys = .error e →
      mainRun out keys keygen cm = .error (.conv e)) :=
  ⟨ssh2cisco_tool_error, mainRun_conv_error⟩

/-- C9 witness: the always-failing tool aborts a run (even in real mode)
with the conversion error and no result. -/
theorem c9_conversion_failure_aborts_witness :
    (kgFail keyAlice).returncode ≠ 0 ∧
    ssh2cisco kgFail keyAlice = .error (.toolFailed keyAlice) ∧
    computeWanted kgFail [("alice".data, keyAlice)] =
      .error (.toolFailed keyAlice) ∧
    mainRun [] [("alice".data, keyAlice)] kgFail false =
      .error (.conv (.toolFailed keyAlice)) :=
  ⟨by decide, c9_conversion_failure_aborts.1 kgFail keyAlice (by decide), rfl,
    c9_conversion_failure_aborts.2 [] [("alice".data, keyAlice)] kgFail false
      (.toolFailed keyAlice) rfl⟩

/-- C10: every user in any parsed KeySet is a non-empty string of word
characters; in particular a user name containing a hyphen can never appear
in the parsed current set, whatever the device prints. -/
theorem c10_parsed_users_are_word_chars (out : Str) :
    ∀ p ∈ parseGot out, p.1 ≠ [] ∧ p.1.all isWordChar = true ∧ '-' ∉ p.1 := by
  intro p hp
  unfold parseGot at hp
  have hk := dictOf_key_mem _ p hp
  obtain ⟨x, hx, hxk⟩ := List.mem_map.mp hk
  obtain ⟨r, hr, hrf⟩ := List.mem_map.mp hx
  have hlab := runFsm_labelsOk _ r hr
  have hpr : p.1 = r.1 := by rw [← hxk, ← hrf]
  refine ⟨hpr ▸ hlab.1, hpr ▸ hlab.2, fun hdash => ?_⟩
  have := List.all_eq_true.mp (hpr ▸ hlab.2) '-' hdash
  exact absurd this (by decide)

/-- C10 witness: the record parsed from the sample report is a word-char
user. -/
theorem c10_parsed_users_are_word_chars_witness :
    ("alice".data, "414141".data) ∈ parseGot outAliceOnly ∧
    ("alice".data ≠ [] ∧ "alice".data.all isWordChar = true ∧
      '-' ∉ "alice".data) :=
  ⟨by decide,
    c10_parsed_users_are_word_chars outAliceOnly ("alice".data, "414141".data)
      (by decide)⟩

end IosxrSshKeys

